import Mathlib

/-
Shallow embedding of the `isr` repository's core: the canonical type/symbol
data model (isr-core/src/types.rs, symbols.rs), the resolution engine
(isr-core/src/profile.rs, isr-macros/src/profile.rs, isr-macros/src/offsets.rs)
and the normalizer fragments the checked statements depend on
(isr-pdb/src/types.rs, isr-dwarf/src/types.rs, isr-dwarf/src/symbols.rs).

Modelling conventions:
- `IndexMap<Cow<str>, V>` becomes an association list `List (String × V)`
  (insertion-ordered, unique keys); `IndexMap::get` becomes `lookupName`
  and `IndexMap::insert` becomes `insertIndexMap`, which replaces the value
  in place (preserving position) and returns the previous value, exactly as
  `IndexMap::insert` does.
- `u64` values (offsets, sizes, addresses) become `Nat`; no arithmetic in the
  modelled code can overflow 64 bits except the shifts in
  `Bitfield::value_from`, which are guarded explicitly below.
- Functions whose Rust counterparts can recurse unboundedly (they follow
  by-name references with no cycle guard) take an explicit fuel argument:
  one unit of fuel per nested call, mirroring the Rust call depth.
  The result type `RRes` distinguishes running out of fuel (`diverges`,
  modelling nontermination of the unbounded original), a Rust `panic!`
  (`panics`) and a normal return (`ret`).
-/

namespace Isr

/-- Outcome of running a piece of Rust code: it may fail to return
(nonterminating recursion, modelled as fuel exhaustion), panic, or
return a value. -/
inductive RRes (α : Type) where
  | diverges
  | panics
  | ret (a : α)
deriving DecidableEq, Repr

/-- Rust `Result<T, E>`. -/
inductive RustResult (α ε : Type) where
  | ok (a : α)
  | error (e : ε)
deriving DecidableEq, Repr

/-- Base type reference (isr-core/src/types.rs, `BaseRef`). -/
inductive BaseRef where
  | Void
  | Bool
  | Char
  | Wchar
  | I8 | I16 | I32 | I64 | I128
  | U8 | U16 | U32 | U64 | U128
  | F8 | F16 | F32 | F64 | F128
deriving DecidableEq, Repr

/-- Enum variant value (isr-core/src/types.rs, `Variant`). -/
inductive Variant where
  | U8 (v : Nat)
  | U16 (v : Nat)
  | U32 (v : Nat)
  | U64 (v : Nat)
  | U128 (v : Nat)
  | I8 (v : Int)
  | I16 (v : Int)
  | I32 (v : Int)
  | I64 (v : Int)
  | I128 (v : Int)
deriving DecidableEq, Repr

/-- Type (isr-core/src/types.rs, `Type`). The `*Ref` payload structs of the
source (`EnumRef{name}`, `StructRef{name}`, `ArrayRef{subtype,dims,size}`,
`PointerRef{subtype}`, `BitfieldRef{subtype,bit_length,bit_position}`) are
inlined as constructor arguments with the same field names. -/
inductive Ty where
  | Base (subkind : BaseRef)
  | Enum (name : String)
  | Struct (name : String)
  | Array (subtype : Ty) (dims : List Nat) (size : Nat)
  | Pointer (subtype : Ty)
  | Bitfield (subtype : Ty) (bit_length : Nat) (bit_position : Nat)
  | Function
deriving DecidableEq, Repr

/-- Struct field (isr-core/src/types.rs, `Field`). -/
structure Field where
  offset : Nat
  type_ : Ty
deriving DecidableEq, Repr

/-- Struct kind (isr-core/src/types.rs, `StructKind`). -/
inductive StructKind where
  | Struct
  | Class
  | Union
  | Interface
deriving DecidableEq, Repr

/-- Struct type (isr-core/src/types.rs, `Struct`). -/
structure Struct where
  kind : StructKind
  size : Nat
  fields : List (String × Field)
deriving DecidableEq, Repr

/-- Enum type (isr-core/src/types.rs, `Enum`). -/
structure Enum where
  subtype : Ty
  fields : List (String × Variant)
deriving DecidableEq, Repr

/-- Type collections (isr-core/src/types.rs, `Types`). -/
structure Types where
  enums : List (String × Enum)
  structs : List (String × Struct)
deriving DecidableEq, Repr

/-- Profile (isr-core/src/profile.rs, `Profile`). The symbol table
`Symbols` (isr-core/src/symbols.rs) is an `IndexMap<Cow<str>, u64>`,
inlined here as the association list `symbols`. -/
structure Profile where
  architecture : String
  symbols : List (String × Nat)
  types : Types
deriving DecidableEq, Repr

/-- Key lookup in an insertion-ordered map (`IndexMap::get`). -/
def lookupName {α : Type} (key : String) : List (String × α) → Option α
  | [] => none
  | (k, v) :: rest => if k = key then some v else lookupName key rest

/-- Keyed insert in an insertion-ordered map (`IndexMap::insert`): if the key
is present the value is replaced in place (keeping its position) and the
previous value returned; otherwise the pair is appended. -/
def insertIndexMap {α : Type} (key : String) (value : α) :
    List (String × α) → List (String × α) × Option α
  | [] => ([(key, value)], none)
  | (k, v) :: rest =>
    if k = key then ((key, value) :: rest, some v)
    else
      let r := insertIndexMap key value rest
      ((k, v) :: r.1, r.2)

/-- Profile construction (isr-core/src/profile.rs, `Profile::new`).
It stores its arguments unchanged and performs no validation. -/
def Profile.new (architecture : String) (symbols : List (String × Nat))
    (types : Types) : Profile :=
  { architecture := architecture, symbols := symbols, types := types }

/-- Size of a base type in bytes (isr-core/src/profile.rs, `Profile::base_size`;
the method does not read `self`). -/
def base_size : BaseRef → Nat
  | .Void => 0
  | .Bool | .Char | .I8 | .U8 | .F8 => 1
  | .Wchar | .I16 | .U16 | .F16 => 2
  | .I32 | .U32 | .F32 => 4
  | .I64 | .U64 | .F64 => 8
  | .I128 | .U128 | .F128 => 16

/-- Pointer size in bytes (isr-core/src/profile.rs, `Profile::pointer_size`).
The source panics on an unsupported architecture string; the panic is
modelled as `none`. -/
def Profile.pointer_size (p : Profile) : Option Nat :=
  if p.architecture = "X86" ∨ p.architecture = "Arm" then some 4
  else if p.architecture = "Amd64" ∨ p.architecture = "Arm64" then some 8
  else none

/-- The `Some(self.pointer_size())` pattern of `type_size`, with the panic
inside `pointer_size` lifted to `RRes.panics`. -/
def Profile.pointer_size_result (p : Profile) : RRes (Option Nat) :=
  match p.pointer_size with
  | none => .panics
  | some s => .ret (some s)

/-- Size of a struct type in bytes (isr-core/src/profile.rs,
`Profile::struct_size`). -/
def Profile.struct_size (p : Profile) (name : String) : Option Nat :=
  (lookupName name p.types.structs).map Struct.size

/-- Size of a type in bytes (isr-core/src/profile.rs, `Profile::type_size`).
`Profile::enum_size` (`self.type_size(&self.types.enums.get(name)?.subtype)`)
is inlined in the `Enum` arm. One unit of fuel is spent per nested call. -/
def Profile.type_size (p : Profile) : Nat → Ty → RRes (Option Nat)
  | 0, _ => .diverges
  | fuel + 1, t =>
    match t with
    | .Base r => .ret (some (base_size r))
    | .Enum name =>
      match lookupName name p.types.enums with
      | none => .ret none
      | some e => p.type_size fuel e.subtype
    | .Struct name => .ret (p.struct_size name)
    | .Array subtype _ _ => p.type_size fuel subtype
    | .Pointer _ => p.pointer_size_result
    | .Bitfield subtype _ _ => p.type_size fuel subtype
    | .Function => p.pointer_size_result

/-- Symbol lookup (isr-core/src/profile.rs, `Profile::find_symbol`). -/
def Profile.find_symbol (p : Profile) (symbol_name : String) : Option Nat :=
  lookupName symbol_name p.symbols

/-- Enum lookup (isr-core/src/profile.rs, `Profile::find_enum`). -/
def Profile.find_enum (p : Profile) (type_name : String) : Option Enum :=
  lookupName type_name p.types.enums

/-- Struct lookup (isr-core/src/profile.rs, `Profile::find_struct`). -/
def Profile.find_struct (p : Profile) (type_name : String) : Option Struct :=
  lookupName type_name p.types.structs

end Isr

namespace Isr.Macros

/-- Resolved field descriptor (isr-macros/src/offsets.rs, `Field`). -/
structure Field where
  offset : Nat
  size : Nat
deriving DecidableEq, Repr

/-- Resolved bit-field descriptor (isr-macros/src/offsets.rs, `Bitfield`).
The source constructs it from an inner plain `Field` plus the two bit
coordinates; the inner struct is flattened here to `offset`/`size`. -/
structure Bitfield where
  offset : Nat
  size : Nat
  bit_position : Nat
  bit_length : Nat
deriving DecidableEq, Repr

/-- Bit-field extraction (isr-macros/src/offsets.rs, `Bitfield::value_from`):
`(value >> bit_position) & ((1u64 << bit_length) - 1)`. Both shifts are
`u64` shifts, which panic when the shift amount reaches 64; the panics are
modelled as `none`, in source order (the right shift comes first). -/
def Bitfield.value_from (b : Bitfield) (value : Nat) : Option Nat :=
  if 64 ≤ b.bit_position then none
  else
    let result := value >>> b.bit_position
    if 64 ≤ b.bit_length then none
    else some (result &&& ((1 <<< b.bit_length) - 1))

/-- Query error (isr-macros/src/error.rs, `Error`). -/
inductive Error where
  | Conversion (msg : String)
  | SymbolNotFound (symbol_name : String)
  | TypeNotFound (type_name : String)
  | FieldNotFound (type_name : String) (field_name : String)
deriving DecidableEq, Repr

/-- Constructor helper (isr-macros/src/error.rs, `Error::type_not_found`). -/
def Error.type_not_found (type_name : String) : Error :=
  .TypeNotFound type_name

/-- Constructor helper (isr-macros/src/error.rs, `Error::field_not_found`). -/
def Error.field_not_found (type_name field_name : String) : Error :=
  .FieldNotFound type_name field_name

/-- Field descriptor (isr-macros/src/offsets.rs, `FieldDescriptor`). -/
inductive FieldDescriptor where
  | Field (field : Field)
  | Bitfield (bitfield : Bitfield)
deriving DecidableEq, Repr

/-- Descriptor rebasing performed by the recursive arm of
`find_field_descriptor` (isr-macros/src/profile.rs): the child descriptor's
offset becomes `field.offset + child.offset`; size and bit-field metadata
are taken from the child unchanged. -/
def reparent (outer_offset : Nat) : FieldDescriptor → FieldDescriptor
  | .Field child => .Field ⟨outer_offset + child.offset, child.size⟩
  | .Bitfield child =>
    .Bitfield ⟨outer_offset + child.offset, child.size,
               child.bit_position, child.bit_length⟩

/-- The `for field in udt.fields.values()` loop of `find_field_descriptor`
(isr-macros/src/profile.rs): walk the fields in declaration order; for each
field whose type is a `Struct` reference, run the recursive lookup `rec`
(the enclosing `find_field_descriptor` at the remaining recursion budget);
on `Ok` rebase and return, on `Err` keep scanning; when the list is
exhausted fail with `field_not_found`. -/
def descend (rec : String → String → Isr.RRes (Isr.RustResult FieldDescriptor Error))
    (type_name field_name : String) :
    List (String × Isr.Field) → Isr.RRes (Isr.RustResult FieldDescriptor Error)
  | [] => .ret (.error (Error.field_not_found type_name field_name))
  | (_, field) :: rest =>
    match field.type_ with
    | .Struct name =>
      match rec name field_name with
      | .diverges => .diverges
      | .panics => .panics
      | .ret (.ok child) => .ret (.ok (reparent field.offset child))
      | .ret (.error _) => descend rec type_name field_name rest
    | _ => descend rec type_name field_name rest

/-- The direct-hit arm of `find_field_descriptor`
(isr-macros/src/profile.rs): both source arms resolve
`self.type_size(&field.type_)` (passed here pre-computed as `size_res`,
since both arms compute the same value) and fail with `field_not_found`
when it is unknown; a field whose type is `Bitfield` yields a bit-field
descriptor carrying the bit coordinates, any other type a plain field
descriptor. -/
def direct_hit (type_name field_name : String) (field : Isr.Field)
    (size_res : Isr.RRes (Option Nat)) :
    Isr.RRes (Isr.RustResult FieldDescriptor Error) :=
  match field.type_ with
  | .Bitfield _ bit_length bit_position =>
    match size_res with
    | .diverges => .diverges
    | .panics => .panics
    | .ret none => .ret (.error (Error.field_not_found type_name field_name))
    | .ret (some size) =>
      .ret (.ok (.Bitfield ⟨field.offset, size, bit_position, bit_length⟩))
  | _ =>
    match size_res with
    | .diverges => .diverges
    | .panics => .panics
    | .ret none => .ret (.error (Error.field_not_found type_name field_name))
    | .ret (some size) => .ret (.ok (.Field ⟨field.offset, size⟩))

/-- Recursive field lookup (isr-macros/src/profile.rs,
`ProfileExt::find_field_descriptor for Profile`). Looks up the struct
(`type_not_found` when absent); if it directly owns `field_name`, resolves
it with `direct_hit`; failing a direct hit it scans the struct's own
fields with `descend`, recursing one call deeper. One unit of fuel is
spent per nested call. -/
def find_field_descriptor (p : Isr.Profile) :
    Nat → String → String → Isr.RRes (Isr.RustResult FieldDescriptor Error)
  | 0, _, _ => .diverges
  | fuel + 1, type_name, field_name =>
    match p.find_struct type_name with
    | none => .ret (.error (Error.type_not_found type_name))
    | some udt =>
      match Isr.lookupName field_name udt.fields with
      | some field =>
        direct_hit type_name field_name field (p.type_size (fuel + 1) field.type_)
      | none => descend (find_field_descriptor p fuel) type_name field_name udt.fields

end Isr.Macros

namespace Isr.Pdb

/-- Conflict policy of the PDB normalizer for user-defined types
(isr-pdb/src/types.rs, `PdbTypes::add_class`, after the class record has
been translated to `new_udt`): `self.structs.insert(name, new_udt)` —
an unconditional keyed insert; a previous definition under the same name is
overwritten (the source only logs a warning about it). `add_union` uses the
same policy. -/
def add_class (structs : List (String × Isr.Struct)) (name : String)
    (new_udt : Isr.Struct) : List (String × Isr.Struct) :=
  (Isr.insertIndexMap name new_udt structs).1

/-- Bit-field translation of the PDB normalizer (isr-pdb/src/types.rs,
`PdbType::new`, `TypeData::Bitfield` arm): the record's `length` and
`position` are stored as they appear in the PDB record (`position` is the
bit position within the whole underlying type, not reduced modulo 8);
`underlying` stands for the already-translated underlying type. -/
def bitfield_type (underlying : Isr.Ty) (length position : Nat) : Isr.Ty :=
  .Bitfield underlying length position

end Isr.Pdb

namespace Isr.Dwarf

/-- The only error of the DWARF normalizer reachable in the modelled
fragment (isr-dwarf/src/error.rs, `Error::InvalidSystemMap`); the remaining
variants wrap failures of external readers. -/
inductive Error where
  | InvalidSystemMap
deriving DecidableEq, Repr

/-- Conflict policy of the DWARF normalizer for user-defined types
(isr-dwarf/src/types.rs, `DwarfTypes::add_struct`, after the entry has been
translated to `new_udt`): a vacant name is inserted; an occupied name is
overwritten in place only when the new definition has strictly more fields.
-/
def add_struct (structs : List (String × Isr.Struct)) (name : String)
    (new_udt : Isr.Struct) : List (String × Isr.Struct) :=
  match Isr.lookupName name structs with
  | none => structs ++ [(name, new_udt)]
  | some previous_udt =>
    if new_udt.fields.length > previous_udt.fields.length then
      (Isr.insertIndexMap name new_udt structs).1
    else structs

/-- Member-type translation of the DWARF normalizer (isr-dwarf/src/types.rs,
`DwarfType::new`): an entry with no resolvable type attribute is `void`;
an entry carrying `DW_AT_bit_size` becomes a `Bitfield` whose position is
`DW_AT_data_bit_offset` (defaulting to 0) reduced modulo 8; otherwise the
resolved type is used directly. `type_` stands for the result of resolving
the entry's type attribute through `Self::from_type` (`none` when the
attribute is absent). -/
def type_new (type_ : Option Isr.Ty) (bit_size : Option Nat)
    (data_bit_offset : Option Nat) : Isr.Ty :=
  match type_ with
  | none => .Base .Void
  | some resolved =>
    match bit_size with
    | some bit_length => .Bitfield resolved bit_length ((data_bit_offset.getD 0) % 8)
    | none => resolved

/-- Value of a single hexadecimal digit. -/
def hex_digit (c : Char) : Option Nat :=
  if '0' ≤ c ∧ c ≤ '9' then some (c.toNat - '0'.toNat)
  else if 'a' ≤ c ∧ c ≤ 'f' then some (c.toNat - 'a'.toNat + 10)
  else if 'A' ≤ c ∧ c ≤ 'F' then some (c.toNat - 'A'.toNat + 10)
  else none

/-- Accumulating base-16 digit parse. -/
def hex_accum : List Char → Nat → Option Nat
  | [], acc => some acc
  | c :: rest, acc =>
    match hex_digit c with
    | none => none
    | some d => hex_accum rest (16 * acc + d)

/-- Model of `u64::from_str_radix(s, 16)`: an optional leading `+` followed
by at least one hexadecimal digit (the parsed addresses fit in 64 bits, so
overflow is not modelled). -/
def from_str_radix_hex (s : String) : Option Nat :=
  let cs := match s.toList with
    | '+' :: rest => rest
    | cs => cs
  match cs with
  | [] => none
  | _ => hex_accum cs 0

/-- Worker for `split_whitespace`: `acc` holds the current token's
characters in reverse. -/
def split_whitespace_go : List Char → List Char → List String
  | [], [] => []
  | [], acc => [String.mk acc.reverse]
  | c :: rest, acc =>
    if c.isWhitespace then
      match acc with
      | [] => split_whitespace_go rest []
      | _ => String.mk acc.reverse :: split_whitespace_go rest []
    else split_whitespace_go rest (c :: acc)

/-- Rust `str::split_whitespace`: maximal runs of non-whitespace characters;
a blank (or all-whitespace) line yields no tokens. -/
def split_whitespace (line : String) : List String :=
  split_whitespace_go line.toList []

/-- The per-line loop of `SystemMapSymbols::parse`
(isr-dwarf/src/symbols.rs): three `next()` calls on the whitespace split
(each missing field is `Error::InvalidSystemMap`), the kind filter
(`d`/`D`/`t`/`T`, other lines are skipped before the address is parsed),
the base-16 address parse (failure is `Error::InvalidSystemMap`), then a
keyed insert into the accumulated symbol table. -/
def systemmap_parse_from (acc : List (String × Nat)) :
    List String → Isr.RustResult (List (String × Nat)) Error
  | [] => .ok acc
  | line :: rest =>
    match split_whitespace line with
    | rva :: kind :: name :: _ =>
      if kind = "d" ∨ kind = "D" ∨ kind = "t" ∨ kind = "T" then
        match from_str_radix_hex rva with
        | none => .error .InvalidSystemMap
        | some value => systemmap_parse_from (Isr.insertIndexMap name value acc).1 rest
      else systemmap_parse_from acc rest
    | _ => .error .InvalidSystemMap

/-- System-map parsing (isr-dwarf/src/symbols.rs, `SystemMapSymbols::parse`
for `Symbols`), taking the text already split into lines (`str::lines`). -/
def systemmap_parse (lines : List String) :
    Isr.RustResult (List (String × Nat)) Error :=
  systemmap_parse_from [] lines

end Isr.Dwarf

namespace Isr.Spec

/-- Collapse a query result to the success/not-found view the specification
describes (which error is returned is not part of the compared behaviour).
-/
def toFound : Isr.RRes (Isr.RustResult Isr.Macros.FieldDescriptor Isr.Macros.Error) →
    Isr.RRes (Option Isr.Macros.FieldDescriptor)
  | .diverges => .diverges
  | .panics => .panics
  | .ret (.ok d) => .ret (some d)
  | .ret (.error _) => .ret none

/-- Rebasing of a nested descriptor as the specification words it: a
descriptor whose offset is the nested offset plus the outer field's offset,
preserving the nested descriptor's size and bit-field metadata. -/
def reparentSpec (outer_offset : Nat) :
    Isr.Macros.FieldDescriptor → Isr.Macros.FieldDescriptor
  | .Field child => .Field ⟨child.offset + outer_offset, child.size⟩
  | .Bitfield child =>
    .Bitfield ⟨child.offset + outer_offset, child.size,
               child.bit_position, child.bit_length⟩

/-- Modelled from the spec: the first success of the depth-first scan over
the struct's own fields in declaration order, recursing (via `rec`) with
the same field name into every field whose type is a `Struct` reference.
-/
def firstSuccess (rec : String → String → Isr.RRes (Option Isr.Macros.FieldDescriptor))
    (field_name : String) :
    List (String × Isr.Field) → Isr.RRes (Option Isr.Macros.FieldDescriptor)
  | [] => .ret none
  | (_, field) :: rest =>
    match field.type_ with
    | .Struct name =>
      match rec name field_name with
      | .diverges => .diverges
      | .panics => .panics
      | .ret (some child) => .ret (some (reparentSpec field.offset child))
      | .ret none => firstSuccess rec field_name rest
    | _ => firstSuccess rec field_name rest

/-- Modelled from the spec: `find_field_descriptor` as §4.4 describes it —
look up the struct; a directly-owned field yields a bit-field descriptor
when its type is `Bitfield` and a plain descriptor otherwise (with the
field's resolved size); failing that, the first success of the depth-first
scan over the struct's own fields; not-found otherwise. Fuel as in the
implementation: one unit per nested lookup. -/
def findSpec (p : Isr.Profile) :
    Nat → String → String → Isr.RRes (Option Isr.Macros.FieldDescriptor)
  | 0, _, _ => .diverges
  | fuel + 1, struct_name, field_name =>
    match p.find_struct struct_name with
    | none => .ret none
    | some udt =>
      match Isr.lookupName field_name udt.fields with
      | some field =>
        match p.type_size (fuel + 1) field.type_ with
        | .diverges => .diverges
        | .panics => .panics
        | .ret none => .ret none
        | .ret (some size) =>
          .ret (some
            (match field.type_ with
             | .Bitfield _ bit_length bit_position =>
               .Bitfield ⟨field.offset, size, bit_position, bit_length⟩
             | _ => .Field ⟨field.offset, size⟩))
      | none => firstSuccess (findSpec p fuel) field_name udt.fields

end Isr.Spec

namespace Isr.Graph

/-- The by-name embedded-substructure reference graph: `StructEdge p child
parent` holds when the struct registered under `parent` has a field whose
type is a `Struct` reference to `child` — exactly the edges the recursive
arm of `find_field_descriptor` follows. -/
def StructEdge (p : Isr.Profile) (child parent : String) : Prop :=
  ∃ udt, Isr.lookupName parent p.types.structs = some udt ∧
    ∃ fname f, (fname, f) ∈ udt.fields ∧ f.type_ = Isr.Ty.Struct child

/-- Acyclicity of the embedded-substructure graph, as well-foundedness of
`StructEdge` (no infinite by-name descent through struct-typed fields). -/
def StructAcyclic (p : Isr.Profile) : Prop :=
  WellFounded (StructEdge p)

/-- The enum names `type_size` can hop to from a type without consuming a
name lookup: the head of the type with `Array`/`Bitfield` wrappers removed,
when that head is an `Enum` reference. -/
def EnumsOn : Isr.Ty → List String
  | .Enum name => [name]
  | .Array subtype _ _ => EnumsOn subtype
  | .Bitfield subtype _ _ => EnumsOn subtype
  | _ => []

/-- The by-name enum reference graph: `EnumEdge p child parent` holds when
the enum registered under `parent` has an underlying type that `type_size`
resolves through the enum named `child`. -/
def EnumEdge (p : Isr.Profile) (child parent : String) : Prop :=
  ∃ e, Isr.lookupName parent p.types.enums = some e ∧ child ∈ EnumsOn e.subtype

/-- Acyclicity of the enum reference graph. -/
def EnumAcyclic (p : Isr.Profile) : Prop :=
  WellFounded (EnumEdge p)

/-- Termination of the (fuel-free, unboundedly recursive) source
`find_field_descriptor` at a query, expressed on the fuelled embedding:
some fuel suffices for the run to complete (return or panic) instead of
exhausting its budget. -/
def Terminates (p : Isr.Profile) (type_name field_name : String) : Prop :=
  ∃ fuel, Isr.Macros.find_field_descriptor p fuel type_name field_name ≠ .diverges

end Isr.Graph

namespace Isr.Fixtures

/-- The nested-resolution example of the specification: `Outer` embeds
`Base` at offset 8 and `Base` owns `id` at offset 0 with size 4 (`U32`). -/
def outerBaseProfile : Isr.Profile :=
  { architecture := "Amd64"
    symbols := []
    types :=
      { enums := []
        structs :=
          [("Outer", ⟨.Struct, 16, [("base", ⟨8, .Struct "Base"⟩)]⟩),
           ("Base", ⟨.Struct, 4, [("id", ⟨0, .Base .U32⟩)]⟩)] } }

/-- A small profile with one enum and one struct, for exercising
`type_size`. -/
def sizeProfile : Isr.Profile :=
  { architecture := "Amd64"
    symbols := [("PsInitialSystemProcess", 4096)]
    types :=
      { enums := [("COLOR", ⟨.Base .I32, [("Red", .I32 0)]⟩)]
        structs := [("S", ⟨.Struct, 12, [("n", ⟨0, .Base .U32⟩)]⟩)] } }

/-- A profile whose struct `S` has a field whose type is a dangling
`Struct` reference to an unregistered name. -/
def danglingProfile : Isr.Profile :=
  { architecture := "Amd64"
    symbols := []
    types :=
      { enums := []
        structs := [("S", ⟨.Struct, 8, [("a", ⟨0, .Struct "Missing"⟩)]⟩)] } }

/-- A profile whose struct `A` embeds itself by name: a circular
embedded-substructure chain. -/
def structCycleProfile : Isr.Profile :=
  { architecture := "Amd64"
    symbols := []
    types :=
      { enums := []
        structs := [("A", ⟨.Struct, 8, [("self", ⟨0, .Struct "A"⟩)]⟩)] } }

/-- A profile whose embedded-substructure graph is trivially acyclic (no
struct-typed fields) but whose enum `E` has itself as underlying type. -/
def enumCycleProfile : Isr.Profile :=
  { architecture := "Amd64"
    symbols := []
    types :=
      { enums := [("E", ⟨.Enum "E", []⟩)]
        structs := [("S", ⟨.Struct, 4, [("f", ⟨0, .Enum "E"⟩)]⟩)] } }

/-- The empty profile. -/
def trivialProfile : Isr.Profile :=
  { architecture := "Amd64", symbols := [], types := { enums := [], structs := [] } }

/-- A struct definition with two fields. -/
def sTwoFields : Isr.Struct :=
  ⟨.Struct, 8, [("x", ⟨0, .Base .U32⟩), ("y", ⟨4, .Base .U32⟩)]⟩

/-- A struct definition with one field, conflicting with `sTwoFields` by
name. -/
def sOneField : Isr.Struct :=
  ⟨.Struct, 8, [("x", ⟨0, .Base .U32⟩)]⟩

end Isr.Fixtures

section HelperLemmas

open Isr

/-- Looking up the key just inserted with `insertIndexMap` finds the new
value, whether the key was present before or not. -/
theorem lookupName_insertIndexMap {α : Type} (key : String) (value : α) :
    ∀ m : List (String × α), lookupName key (insertIndexMap key value m).1 = some value := by
  intro m
  induction m with
  | nil => simp [insertIndexMap, lookupName]
  | cons head rest ih =>
    obtain ⟨k, v⟩ := head
    by_cases hk : k = key
    · simp [insertIndexMap, hk, lookupName]
    · simp [insertIndexMap, hk, lookupName, ih]

/-- Appending a new binding for an absent key makes it findable. -/
theorem lookupName_append_absent {α : Type} (key : String) (value : α) :
    ∀ m : List (String × α), lookupName key m = none →
      lookupName key (m ++ [(key, value)]) = some value := by
  intro m
  induction m with
  | nil => intro _; simp [lookupName]
  | cons head rest ih =>
    obtain ⟨k, v⟩ := head
    intro h
    by_cases hk : k = key
    · simp [lookupName, hk] at h
    · simp only [List.cons_append, lookupName, if_neg hk] at h ⊢
      exact ih h

/-- A name lookup fails exactly when no binding carries the name. -/
theorem lookupName_eq_none_iff {α : Type} (key : String) :
    ∀ m : List (String × α), lookupName key m = none ↔ ∀ v : α, (key, v) ∉ m := by
  intro m
  induction m with
  | nil => simp [lookupName]
  | cons head rest ih =>
    obtain ⟨k, v⟩ := head
    by_cases hk : k = key
    · subst hk
      simp only [lookupName, if_pos rfl]
      constructor
      · intro h; cases h
      · intro h; exact absurd (List.mem_cons_self (k, v) rest) (h v)
    · simp only [lookupName, if_neg hk, ih, List.mem_cons]
      constructor
      · intro h w hw
        rcases hw with hw | hw
        · exact hk (congrArg Prod.fst hw).symm
        · exact h w hw
      · intro h w hw
        exact h w (Or.inr hw)

end HelperLemmas

section ClaimC7

open Isr.Macros

/-- C7 counterexample: the claim quantifies over every bitfield descriptor,
but with `bit_length = 64` the mask shift `1u64 << 64` overflows and the
source panics (modelled as `none`) instead of returning the shift-and-mask
value (which would be `1` for raw value `1`); likewise the right shift
panics when `bit_position = 64`, where the claimed equation would give `0`.
-/
theorem C7_counterexample :
    Bitfield.value_from ⟨0, 8, 0, 64⟩ 1 = none
    ∧ ((1 : Nat) >>> 0) &&& ((1 <<< 64) - 1) = 1
    ∧ Bitfield.value_from ⟨0, 8, 64, 4⟩ 5 = none
    ∧ ((5 : Nat) >>> 64) &&& ((1 <<< 4) - 1) = 0 := by
  refine ⟨by decide, by decide, by decide, by decide⟩

/-- C7 (amended): for every bitfield descriptor whose `bit_position` and
`bit_length` are both below 64 — so that neither `u64` shift overflows —
and every raw value, `value_from` returns the raw value shifted right by
`bit_position` and masked with `(1 << bit_length) - 1`; in particular the
two nibble examples over `0x1234567890abcdef` give `0xf` and `0xe`. -/
theorem C7_value_from_shift_mask :
    (∀ (b : Bitfield) (value : Nat),
      b.bit_position < 64 → b.bit_length < 64 →
      b.value_from value
        = some ((value >>> b.bit_position) &&& ((1 <<< b.bit_length) - 1)))
    ∧ Bitfield.value_from ⟨0, 8, 0, 4⟩ 0x1234567890abcdef = some 0xf
    ∧ Bitfield.value_from ⟨0, 8, 4, 4⟩ 0x1234567890abcdef = some 0xe := by
  refine ⟨?_, by decide, by decide⟩
  intro b value h1 h2
  simp [Bitfield.value_from, Nat.not_le.mpr h1, Nat.not_le.mpr h2]

/-- C7 witness: the amended equation at a concrete descriptor and value. -/
theorem C7_value_from_shift_mask_witness :
    Bitfield.value_from ⟨0, 8, 1, 3⟩ 10
      = some ((10 >>> 1) &&& ((1 <<< 3) - 1)) :=
  C7_value_from_shift_mask.1 ⟨0, 8, 1, 3⟩ 10 (by decide) (by decide)

/-- C10: `value_from` panics (returns no value) on every raw value whenever
`bit_length ≥ 64`, because `(1u64 << bit_length) - 1` overflows the 64-bit
shift; and it is total (the overflow branches are unreachable) whenever
`bit_position` and `bit_length` are both at most 63. -/
theorem C10_value_from_totality :
    (∀ (b : Bitfield) (value : Nat),
      64 ≤ b.bit_length → b.value_from value = none)
    ∧ (∀ (b : Bitfield) (value : Nat),
      b.bit_position < 64 → b.bit_length < 64 → b.value_from value ≠ none) := by
  constructor
  · intro b value h
    by_cases hp : 64 ≤ b.bit_position <;> simp [Bitfield.value_from, hp, h]
  · intro b value h1 h2
    simp [Bitfield.value_from, Nat.not_le.mpr h1, Nat.not_le.mpr h2]

/-- C10 witness: the overflowing and the in-range case at concrete inputs.
-/
theorem C10_value_from_totality_witness :
    Bitfield.value_from ⟨0, 8, 0, 70⟩ 3 = none
    ∧ Bitfield.value_from ⟨0, 8, 2, 5⟩ 3 ≠ none :=
  ⟨C10_value_from_totality.1 ⟨0, 8, 0, 70⟩ 3 (by decide),
   C10_value_from_totality.2 ⟨0, 8, 2, 5⟩ 3 (by decide) (by decide)⟩

end ClaimC7

section ClaimC6

open Isr

/-- C6 counterexample: constructing a profile with the unsupported
architecture `"Mips"` succeeds — `Profile::new` stores the tag without
validation, so there is no construction-time error — and the failure
surfaces as a panic at the point of use, when `pointer_size` is called. -/
theorem C6_counterexample :
    (Profile.new "Mips" [] ⟨[], []⟩).architecture = "Mips"
    ∧ (Profile.new "Mips" [] ⟨[], []⟩).pointer_size = none := by
  refine ⟨rfl, by decide⟩

/-- C6 (amended): `pointer_size` returns 4 for architecture tags `X86` and
`Arm` and 8 for `Amd64` and `Arm64`; any other tag is accepted unchecked by
`Profile::new` and makes `pointer_size` panic at the point of use. -/
theorem C6_pointer_size :
    (∀ (s : List (String × Nat)) (t : Types),
      (Profile.new "X86" s t).pointer_size = some 4
      ∧ (Profile.new "Arm" s t).pointer_size = some 4
      ∧ (Profile.new "Amd64" s t).pointer_size = some 8
      ∧ (Profile.new "Arm64" s t).pointer_size = some 8)
    ∧ (∀ (a : String) (s : List (String × Nat)) (t : Types),
      a ≠ "X86" → a ≠ "Arm" → a ≠ "Amd64" → a ≠ "Arm64" →
      (Profile.new a s t).architecture = a
      ∧ (Profile.new a s t).pointer_size = none) := by
  constructor
  · intro s t
    refine ⟨?_, ?_, ?_, ?_⟩ <;> simp [Profile.new, Profile.pointer_size]
  · intro a s t h1 h2 h3 h4
    refine ⟨rfl, ?_⟩
    simp [Profile.new, Profile.pointer_size, h1, h2, h3, h4]

/-- C6 witness: the unchecked-construction case at a concrete tag. -/
theorem C6_pointer_size_witness :
    (Profile.new "Sparc" [] ⟨[], []⟩).architecture = "Sparc"
    ∧ (Profile.new "Sparc" [] ⟨[], []⟩).pointer_size = none :=
  C6_pointer_size.2 "Sparc" [] ⟨[], []⟩ (by decide) (by decide) (by decide) (by decide)

end ClaimC6

section ClaimC4

open Isr

/-- C4 counterexample: the PDB normalizer stores a bitfield record's
position exactly as it appears in the record — position 20 (legal in PDB,
where the position is relative to the whole underlying type) is stored as
`bit_position = 20`, outside the claimed 0–7 range. -/
theorem C4_counterexample :
    Pdb.bitfield_type (.Base .U64) 4 20 = Ty.Bitfield (.Base .U64) 4 20
    ∧ ¬ (20 : Nat) ≤ 7 := by
  refine ⟨rfl, by decide⟩

/-- C4 (amended): the DWARF normalizer represents a member carrying a
bit-size attribute as a `Bitfield` whose `bit_position` is the bit offset
(defaulting to 0) reduced modulo 8, hence always in 0–7; the PDB
normalizer stores the record's raw position unchanged, which may exceed 7.
-/
theorem C4_bit_position_normalization :
    (∀ (resolved : Ty) (bit_length : Nat) (dbo : Option Nat),
      Dwarf.type_new (some resolved) (some bit_length) dbo
        = Ty.Bitfield resolved bit_length ((dbo.getD 0) % 8)
      ∧ (dbo.getD 0) % 8 ≤ 7)
    ∧ (∀ (underlying : Ty) (length position : Nat),
      Pdb.bitfield_type underlying length position
        = Ty.Bitfield underlying length position) := by
  constructor
  · intro resolved bit_length dbo
    exact ⟨rfl, by omega⟩
  · intro underlying length position
    rfl

end ClaimC4

section ClaimC2

open Isr Isr.Fixtures

/-- C2 counterexample: under the PDB normalizer's policy, ingesting the
two-field definition of `S` and then the one-field definition leaves the
one-field definition in the collection — the definition with more fields
does not win, and swapping the ingestion order changes the result. -/
theorem C2_counterexample :
    Isr.lookupName "S" (Pdb.add_class (Pdb.add_class [] "S" sTwoFields) "S" sOneField)
      = some sOneField
    ∧ Isr.lookupName "S" (Pdb.add_class (Pdb.add_class [] "S" sOneField) "S" sTwoFields)
      = some sTwoFields
    ∧ sOneField.fields.length < sTwoFields.fields.length := by
  refine ⟨by decide, by decide, by decide⟩

/-- C2 (amended): when two concrete definitions with the same name and
differing field counts are ingested into a collection not already holding
that name, the DWARF normalizer keeps the definition with more fields
regardless of ingestion order, while the PDB normalizer keeps whichever
definition was ingested last, regardless of field counts. -/
theorem C2_merge_policy (s : List (String × Isr.Struct)) (name : String)
    (a b : Isr.Struct)
    (h0 : Isr.lookupName name s = none)
    (hne : a.fields.length ≠ b.fields.length) :
    (Isr.lookupName name (Dwarf.add_struct (Dwarf.add_struct s name a) name b)
      = some (if a.fields.length > b.fields.length then a else b))
    ∧ (Isr.lookupName name (Dwarf.add_struct (Dwarf.add_struct s name b) name a)
      = some (if a.fields.length > b.fields.length then a else b))
    ∧ Isr.lookupName name (Pdb.add_class (Pdb.add_class s name a) name b) = some b
    ∧ Isr.lookupName name (Pdb.add_class (Pdb.add_class s name b) name a) = some a := by
  have pdb1 : Isr.lookupName name (Pdb.add_class (Pdb.add_class s name a) name b) = some b :=
    lookupName_insertIndexMap name b _
  have pdb2 : Isr.lookupName name (Pdb.add_class (Pdb.add_class s name b) name a) = some a :=
    lookupName_insertIndexMap name a _
  have ha1 : Dwarf.add_struct s name a = s ++ [(name, a)] := by
    simp [Dwarf.add_struct, h0]
  have hb1 : Dwarf.add_struct s name b = s ++ [(name, b)] := by
    simp [Dwarf.add_struct, h0]
  have hla : Isr.lookupName name (s ++ [(name, a)]) = some a :=
    lookupName_append_absent name a s h0
  have hlb : Isr.lookupName name (s ++ [(name, b)]) = some b :=
    lookupName_append_absent name b s h0
  by_cases hab : a.fields.length > b.fields.length
  · have hba : ¬ b.fields.length > a.fields.length := by omega
    refine ⟨?_, ?_, pdb1, pdb2⟩
    · have h2 : Dwarf.add_struct (s ++ [(name, a)]) name b = s ++ [(name, a)] := by
        simp [Dwarf.add_struct, hla, hba]
      rw [ha1, h2, if_pos hab]
      exact hla
    · have h2 : Dwarf.add_struct (s ++ [(name, b)]) name a
          = (Isr.insertIndexMap name a (s ++ [(name, b)])).1 := by
        simp [Dwarf.add_struct, hlb, hab]
      rw [hb1, h2, if_pos hab]
      exact lookupName_insertIndexMap name a _
  · have hba : b.fields.length > a.fields.length := by omega
    refine ⟨?_, ?_, pdb1, pdb2⟩
    · have h2 : Dwarf.add_struct (s ++ [(name, a)]) name b
          = (Isr.insertIndexMap name b (s ++ [(name, a)])).1 := by
        simp [Dwarf.add_struct, hla, hba]
      rw [ha1, h2, if_neg hab]
      exact lookupName_insertIndexMap name b _
    · have h2 : Dwarf.add_struct (s ++ [(name, b)]) name a = s ++ [(name, b)] := by
        simp [Dwarf.add_struct, hlb, hab]
      rw [hb1, h2, if_neg hab]
      exact hlb

/-- C2 witness: the amended merge policy at two concrete conflicting
definitions. -/
theorem C2_merge_policy_witness :
    (Isr.lookupName "S" (Dwarf.add_struct (Dwarf.add_struct [] "S" sTwoFields) "S" sOneField)
      = some (if sTwoFields.fields.length > sOneField.fields.length then sTwoFields else sOneField))
    ∧ (Isr.lookupName "S" (Dwarf.add_struct (Dwarf.add_struct [] "S" sOneField) "S" sTwoFields)
      = some (if sTwoFields.fields.length > sOneField.fields.length then sTwoFields else sOneField))
    ∧ Isr.lookupName "S" (Pdb.add_class (Pdb.add_class [] "S" sTwoFields) "S" sOneField)
      = some sOneField
    ∧ Isr.lookupName "S" (Pdb.add_class (Pdb.add_class [] "S" sOneField) "S" sTwoFields)
      = some sTwoFields :=
  C2_merge_policy [] "S" sTwoFields sOneField rfl (by decide)

end ClaimC2

section ClaimC5

open Isr Isr.Dwarf

/-- C5 counterexample: a blank line is not ignored — it has fewer than
three whitespace-separated fields, so it aborts the whole parse with the
invalid-system-map failure (dropping it makes the same input parse); and a
line with a non-hex address is not rejected when its kind character is
outside `d`/`D`/`t`/`T` — the kind filter skips it before the address is
parsed. -/
theorem C5_counterexample :
    systemmap_parse ["1000 T _text", ""] = .error .InvalidSystemMap
    ∧ systemmap_parse ["1000 T _text"] = .ok [("_text", 4096)]
    ∧ systemmap_parse ["zzzz x custom"] = .ok [] := by
  refine ⟨by decide, by decide, by decide⟩

/-- C5 (amended): parsing keeps only lines whose kind character is one of
`d`, `D`, `t`, `T`; every line with fewer than three whitespace-separated
fields — blank lines included — aborts the whole parse with the
invalid-system-map failure; a non-hex address aborts the parse exactly on
lines whose kind is kept (other lines are skipped before the address is
parsed); kept well-formed lines insert their symbol and parsing continues.
-/
theorem C5_systemmap_parse :
    (∀ (acc : List (String × Nat)) (line : String) (rest : List String),
      (split_whitespace line).length < 3 →
      systemmap_parse_from acc (line :: rest) = .error .InvalidSystemMap)
    ∧ (∀ (acc : List (String × Nat)) (line : String) (rest : List String)
        (rva kind nm : String) (extra : List String),
      split_whitespace line = rva :: kind :: nm :: extra →
      ¬(kind = "d" ∨ kind = "D" ∨ kind = "t" ∨ kind = "T") →
      systemmap_parse_from acc (line :: rest) = systemmap_parse_from acc rest)
    ∧ (∀ (acc : List (String × Nat)) (line : String) (rest : List String)
        (rva kind nm : String) (extra : List String),
      split_whitespace line = rva :: kind :: nm :: extra →
      (kind = "d" ∨ kind = "D" ∨ kind = "t" ∨ kind = "T") →
      from_str_radix_hex rva = none →
      systemmap_parse_from acc (line :: rest) = .error .InvalidSystemMap)
    ∧ (∀ (acc : List (String × Nat)) (line : String) (rest : List String)
        (rva kind nm : String) (extra : List String) (value : Nat),
      split_whitespace line = rva :: kind :: nm :: extra →
      (kind = "d" ∨ kind = "D" ∨ kind = "t" ∨ kind = "T") →
      from_str_radix_hex rva = some value →
      systemmap_parse_from acc (line :: rest)
        = systemmap_parse_from (Isr.insertIndexMap nm value acc).1 rest)
    ∧ (∀ (lines : List String) (acc : List (String × Nat)),
      "" ∈ lines → systemmap_parse_from acc lines = .error .InvalidSystemMap) := by
  have step_short : ∀ (acc : List (String × Nat)) (line : String) (rest : List String),
      (split_whitespace line).length < 3 →
      systemmap_parse_from acc (line :: rest) = .error .InvalidSystemMap := by
    intro acc line rest hlen
    rcases hs : split_whitespace line with _ | ⟨rva, _ | ⟨kind, _ | ⟨nm, extra⟩⟩⟩
    · simp [systemmap_parse_from, hs]
    · simp [systemmap_parse_from, hs]
    · simp [systemmap_parse_from, hs]
    · rw [hs] at hlen
      simp only [List.length_cons] at hlen
      omega
  refine ⟨step_short, ?_, ?_, ?_, ?_⟩
  · intro acc line rest rva kind nm extra hs hk
    simp only [systemmap_parse_from, hs]
    rw [if_neg hk]
  · intro acc line rest rva kind nm extra hs hk hhex
    simp only [systemmap_parse_from, hs]
    rw [if_pos hk]
    simp [hhex]
  · intro acc line rest rva kind nm extra value hs hk hhex
    simp only [systemmap_parse_from, hs]
    rw [if_pos hk]
    simp [hhex]
  · intro lines
    induction lines with
    | nil => intro acc h; cases h
    | cons line rest ih =>
      intro acc h
      rcases List.mem_cons.mp h with heq | hmem
      · rw [← heq]
        exact step_short acc "" rest (by decide)
      · rcases hs : split_whitespace line with _ | ⟨rva, _ | ⟨kind, _ | ⟨nm, extra⟩⟩⟩
        · simp [systemmap_parse_from, hs]
        · simp [systemmap_parse_from, hs]
        · simp [systemmap_parse_from, hs]
        · by_cases hk : kind = "d" ∨ kind = "D" ∨ kind = "t" ∨ kind = "T"
          · cases hhex : from_str_radix_hex rva with
            | none =>
              simp only [systemmap_parse_from, hs]
              rw [if_pos hk]
              simp [hhex]
            | some value =>
              simp only [systemmap_parse_from, hs]
              rw [if_pos hk]
              simp only [hhex]
              exact ih _ hmem
          · simp only [systemmap_parse_from, hs]
            rw [if_neg hk]
            exact ih _ hmem

/-- C5 witness: a blank line aborting the parse, derived from the amended
statement. -/
theorem C5_systemmap_parse_witness :
    systemmap_parse_from [] ["", "1000 T _text"] = .error .InvalidSystemMap :=
  C5_systemmap_parse.1 [] "" ["1000 T _text"] (by decide)

end ClaimC5

section ClaimC3

open Isr

/-- C3: `type_size` returns the fixed documented byte width for each base
subkind independently of the profile (`base_size` reads nothing else);
the underlying type's size for a registered enum and the declared size for
a registered struct; the element type's size for an array (the element
count and dimensions do not enter the recursion); `pointer_size()` for
pointers and functions; the underlying type's size for a bitfield; and the
unknown-size outcome when a referenced enum or struct name is absent. -/
theorem C3_type_size (p : Profile) (fuel : Nat) :
    (∀ r : BaseRef, p.type_size (fuel + 1) (.Base r) = .ret (some (Isr.base_size r)))
    ∧ (Isr.base_size .Void = 0 ∧ Isr.base_size .Bool = 1 ∧ Isr.base_size .Char = 1
      ∧ Isr.base_size .Wchar = 2
      ∧ Isr.base_size .I8 = 1 ∧ Isr.base_size .I16 = 2 ∧ Isr.base_size .I32 = 4
      ∧ Isr.base_size .I64 = 8 ∧ Isr.base_size .I128 = 16
      ∧ Isr.base_size .U8 = 1 ∧ Isr.base_size .U16 = 2 ∧ Isr.base_size .U32 = 4
      ∧ Isr.base_size .U64 = 8 ∧ Isr.base_size .U128 = 16
      ∧ Isr.base_size .F8 = 1 ∧ Isr.base_size .F16 = 2 ∧ Isr.base_size .F32 = 4
      ∧ Isr.base_size .F64 = 8 ∧ Isr.base_size .F128 = 16)
    ∧ (∀ (name : String) (e : Enum),
      Isr.lookupName name p.types.enums = some e →
      p.type_size (fuel + 1) (.Enum name) = p.type_size fuel e.subtype)
    ∧ (∀ name : String,
      Isr.lookupName name p.types.enums = none →
      p.type_size (fuel + 1) (.Enum name) = .ret none)
    ∧ (∀ (name : String) (udt : Isr.Struct),
      Isr.lookupName name p.types.structs = some udt →
      p.type_size (fuel + 1) (.Struct name) = .ret (some udt.size))
    ∧ (∀ name : String,
      Isr.lookupName name p.types.structs = none →
      p.type_size (fuel + 1) (.Struct name) = .ret none)
    ∧ (∀ (subtype : Ty) (dims : List Nat) (count : Nat),
      p.type_size (fuel + 1) (.Array subtype dims count) = p.type_size fuel subtype)
    ∧ (∀ subtype : Ty,
      p.type_size (fuel + 1) (.Pointer subtype) = p.pointer_size_result)
    ∧ p.type_size (fuel + 1) .Function = p.pointer_size_result
    ∧ (∀ (subtype : Ty) (bit_length bit_position : Nat),
      p.type_size (fuel + 1) (.Bitfield subtype bit_length bit_position)
        = p.type_size fuel subtype) := by
  refine ⟨fun r => rfl, ?_, ?_, ?_, ?_, ?_, fun subtype dims count => rfl,
    fun subtype => rfl, rfl, fun subtype bl bp => rfl⟩
  · refine ⟨rfl, rfl, rfl, rfl, rfl, rfl, rfl, rfl, rfl, rfl, rfl, rfl, rfl,
      rfl, rfl, rfl, rfl, rfl, rfl⟩
  · intro name e h
    simp [Profile.type_size, h]
  · intro name h
    simp [Profile.type_size, h]
  · intro name udt h
    simp [Profile.type_size, Profile.struct_size, h]
  · intro name h
    simp [Profile.type_size, Profile.struct_size, h]

/-- C3 witness: the size equations at a concrete profile holding one enum
and one struct. -/
theorem C3_type_size_witness :
    Isr.Fixtures.sizeProfile.type_size 2 (.Base .U32) = .ret (some 4)
    ∧ Isr.Fixtures.sizeProfile.type_size 2 (.Enum "COLOR")
        = Isr.Fixtures.sizeProfile.type_size 1
            (Isr.Enum.subtype ⟨.Base .I32, [("Red", .I32 0)]⟩)
    ∧ Isr.Fixtures.sizeProfile.type_size 2 (.Struct "S")
        = .ret (some (Isr.Struct.size ⟨.Struct, 12, [("n", ⟨0, .Base .U32⟩)]⟩))
    ∧ Isr.Fixtures.sizeProfile.type_size 2 (.Struct "Absent") = .ret none
    ∧ Isr.Fixtures.sizeProfile.type_size 2 (.Enum "Absent") = .ret none := by
  have h := C3_type_size Isr.Fixtures.sizeProfile 1
  exact ⟨h.1 .U32,
    h.2.2.1 "COLOR" ⟨.Base .I32, [("Red", .I32 0)]⟩ (by decide),
    h.2.2.2.2.1 "S" ⟨.Struct, 12, [("n", ⟨0, .Base .U32⟩)]⟩ (by decide),
    h.2.2.2.2.2.1 "Absent" (by decide),
    h.2.2.2.1 "Absent" (by decide)⟩

end ClaimC3

section ClaimC8

open Isr Isr.Macros

/-- C8: absent names always resolve to the not-found outcome —
`find_symbol`/`find_enum`/`find_struct` return `None` exactly when no
binding carries the queried name; `find_field_descriptor` returns the
`type_not_found` error when the struct is absent; a directly-owned field
whose type is a dangling `Struct` or `Enum` reference (a name absent from
the collections) resolves to the `field_not_found` error rather than a
crash; and the depth-first scan through a dangling reference likewise ends
in `field_not_found`. -/
theorem C8_not_found :
    (∀ (p : Profile) (name : String),
      p.find_symbol name = none ↔ ∀ v : Nat, (name, v) ∉ p.symbols)
    ∧ (∀ (p : Profile) (name : String),
      p.find_enum name = none ↔ ∀ e : Enum, (name, e) ∉ p.types.enums)
    ∧ (∀ (p : Profile) (name : String),
      p.find_struct name = none ↔ ∀ u : Isr.Struct, (name, u) ∉ p.types.structs)
    ∧ (∀ (p : Profile) (fuel : Nat) (tn fn : String),
      p.find_struct tn = none →
      find_field_descriptor p (fuel + 1) tn fn
        = .ret (.error (.TypeNotFound tn)))
    ∧ (∀ (p : Profile) (fuel : Nat) (tn fn : String) (udt : Isr.Struct)
        (field : Isr.Field) (m : String),
      p.find_struct tn = some udt →
      Isr.lookupName fn udt.fields = some field →
      field.type_ = .Struct m →
      p.find_struct m = none →
      find_field_descriptor p (fuel + 1) tn fn
        = .ret (.error (.FieldNotFound tn fn)))
    ∧ (∀ (p : Profile) (fuel : Nat) (tn fn : String) (udt : Isr.Struct)
        (field : Isr.Field) (m : String),
      p.find_struct tn = some udt →
      Isr.lookupName fn udt.fields = some field →
      field.type_ = .Enum m →
      p.find_enum m = none →
      find_field_descriptor p (fuel + 1) tn fn
        = .ret (.error (.FieldNotFound tn fn)))
    ∧ find_field_descriptor Isr.Fixtures.danglingProfile 5 "S" "x"
        = .ret (.error (.FieldNotFound "S" "x")) := by
  refine ⟨?_, ?_, ?_, ?_, ?_, ?_, by decide⟩
  · intro p name
    exact lookupName_eq_none_iff name p.symbols
  · intro p name
    exact lookupName_eq_none_iff name p.types.enums
  · intro p name
    exact lookupName_eq_none_iff name p.types.structs
  · intro p fuel tn fn h
    simp [find_field_descriptor, h, Error.type_not_found]
  · intro p fuel tn fn udt field m h1 h2 hty h4
    have h4l : Isr.lookupName m p.types.structs = none := h4
    simp [find_field_descriptor, h1, h2, direct_hit, hty,
      Profile.type_size, Profile.struct_size, h4l, Error.field_not_found]
  · intro p fuel tn fn udt field m h1 h2 hty h4
    have h4l : Isr.lookupName m p.types.enums = none := h4
    simp [find_field_descriptor, h1, h2, direct_hit, hty,
      Profile.type_size, h4l, Error.field_not_found]

/-- C8 witness: the not-found outcomes at concrete queries — an absent
struct name and a directly-owned field whose type dangles. -/
theorem C8_not_found_witness :
    find_field_descriptor Isr.Fixtures.trivialProfile 1 "Nope" "x"
      = .ret (.error (.TypeNotFound "Nope"))
    ∧ find_field_descriptor Isr.Fixtures.danglingProfile 1 "S" "a"
      = .ret (.error (.FieldNotFound "S" "a")) :=
  ⟨C8_not_found.2.2.2.1 Isr.Fixtures.trivialProfile 0 "Nope" "x" (by decide),
   C8_not_found.2.2.2.2.1 Isr.Fixtures.danglingProfile 0 "S" "a"
     ⟨.Struct, 8, [("a", ⟨0, .Struct "Missing"⟩)]⟩ ⟨0, .Struct "Missing"⟩
     "Missing" (by decide) (by decide) (by decide) (by decide)⟩

end ClaimC8

section ClaimC1

open Isr Isr.Macros Isr.Spec

/-- Rebasing a nested descriptor commutes with how the specification words
the offset sum (nested plus outer versus outer plus nested). -/
theorem reparentSpec_eq_reparent (outer_offset : Nat) (d : FieldDescriptor) :
    reparentSpec outer_offset d = reparent outer_offset d := by
  cases d <;> simp [reparentSpec, reparent, Nat.add_comm]

/-- The implementation's field scan agrees with the specification's
first-success scan, given that the recursive lookups agree. -/
theorem descend_eq_firstSuccess (p : Profile) (fuel : Nat)
    (hrec : ∀ tn fn, toFound (find_field_descriptor p fuel tn fn) = findSpec p fuel tn fn) :
    ∀ (tn fn : String) (fields : List (String × Isr.Field)),
      toFound (descend (find_field_descriptor p fuel) tn fn fields)
        = firstSuccess (findSpec p fuel) fn fields := by
  intro tn fn fields
  induction fields with
  | nil => rfl
  | cons head rest ih =>
    obtain ⟨hname, field⟩ := head
    cases hty : field.type_ with
    | Struct m =>
      simp only [descend, firstSuccess, hty]
      rw [← hrec m fn]
      cases hc : find_field_descriptor p fuel m fn with
      | diverges => simp [toFound]
      | panics => simp [toFound]
      | ret r =>
        cases r with
        | ok child => simp [toFound, reparentSpec_eq_reparent]
        | error e => simpa [toFound] using ih
    | Base r => simpa only [descend, firstSuccess, hty] using ih
    | Enum n => simpa only [descend, firstSuccess, hty] using ih
    | Array s d c => simpa only [descend, firstSuccess, hty] using ih
    | Pointer s => simpa only [descend, firstSuccess, hty] using ih
    | Bitfield s bl bp => simpa only [descend, firstSuccess, hty] using ih
    | Function => simpa only [descend, firstSuccess, hty] using ih

/-- The implementation agrees with the specification's description of the
algorithm, at every profile, fuel and query. -/
theorem ffd_toFound_eq_findSpec (p : Profile) :
    ∀ (fuel : Nat) (tn fn : String),
      toFound (find_field_descriptor p fuel tn fn) = findSpec p fuel tn fn := by
  intro fuel
  induction fuel with
  | zero => intro tn fn; rfl
  | succ fuel ih =>
    intro tn fn
    cases hfs : p.find_struct tn with
    | none => simp [find_field_descriptor, findSpec, hfs, toFound]
    | some udt =>
      cases hlf : Isr.lookupName fn udt.fields with
      | some field =>
        cases hts : p.type_size (fuel + 1) field.type_ with
        | diverges =>
          cases hty : field.type_ <;> rw [hty] at hts <;>
            simp [find_field_descriptor, findSpec, hfs, hlf, hty, hts,
              direct_hit, toFound]
        | panics =>
          cases hty : field.type_ <;> rw [hty] at hts <;>
            simp [find_field_descriptor, findSpec, hfs, hlf, hty, hts,
              direct_hit, toFound]
        | ret o =>
          cases o with
          | none =>
            cases hty : field.type_ <;> rw [hty] at hts <;>
              simp [find_field_descriptor, findSpec, hfs, hlf, hty, hts,
                direct_hit, toFound]
          | some size =>
            cases hty : field.type_ <;> rw [hty] at hts <;>
              simp [find_field_descriptor, findSpec, hfs, hlf, hty, hts,
                direct_hit, toFound]
      | none =>
        have hL : find_field_descriptor p (fuel + 1) tn fn
            = descend (find_field_descriptor p fuel) tn fn udt.fields := by
          simp [find_field_descriptor, hfs, hlf]
        have hR : findSpec p (fuel + 1) tn fn
            = firstSuccess (findSpec p fuel) fn udt.fields := by
          simp [findSpec, hfs, hlf]
        rw [hL, hR]
        exact descend_eq_firstSuccess p fuel ih tn fn udt.fields

/-- C1: `find_field_descriptor` implements exactly the behaviour the
specification describes — a direct hit on a field the struct itself owns
(bit-field descriptor for a `Bitfield`-typed field, plain descriptor
otherwise), then a depth-first scan over the struct's own fields in
declaration order, recursing with the same field name into every field
whose type is a `Struct` reference, the first success rebased by the outer
field's offset with size and bit-field metadata preserved — and on the
`Outer`/`Base` example it yields offset 8 and size 4. -/
theorem C1_find_field_descriptor_follows_spec :
    (∀ (p : Profile) (fuel : Nat) (struct_name field_name : String),
      toFound (find_field_descriptor p fuel struct_name field_name)
        = findSpec p fuel struct_name field_name)
    ∧ find_field_descriptor Isr.Fixtures.outerBaseProfile 3 "Outer" "id"
        = .ret (.ok (.Field ⟨8, 4⟩)) :=
  ⟨fun p => ffd_toFound_eq_findSpec p, by decide⟩

end ClaimC1

section ClaimC9

open Isr Isr.Macros Isr.Graph

/-- Unfolding of `type_size` at successor fuel on a base type. -/
theorem type_size_succ_base (p : Profile) (fuel : Nat) (r : BaseRef) :
    p.type_size (fuel + 1) (.Base r) = .ret (some (Isr.base_size r)) := rfl

/-- Unfolding of `type_size` at successor fuel on an enum reference. -/
theorem type_size_succ_enum (p : Profile) (fuel : Nat) (name : String) :
    p.type_size (fuel + 1) (.Enum name)
      = match Isr.lookupName name p.types.enums with
        | none => .ret none
        | some e => p.type_size fuel e.subtype := rfl

/-- Unfolding of `type_size` at successor fuel on an array type. -/
theorem type_size_succ_array (p : Profile) (fuel : Nat) (subtype : Ty)
    (dims : List Nat) (count : Nat) :
    p.type_size (fuel + 1) (.Array subtype dims count) = p.type_size fuel subtype := rfl

/-- Unfolding of `type_size` at successor fuel on a bitfield type. -/
theorem type_size_succ_bitfield (p : Profile) (fuel : Nat) (subtype : Ty)
    (bit_length bit_position : Nat) :
    p.type_size (fuel + 1) (.Bitfield subtype bit_length bit_position)
      = p.type_size fuel subtype := rfl

/-- One extra unit of fuel does not change a `type_size` run that already
completes. -/
theorem type_size_mono_succ (p : Profile) :
    ∀ (fuel : Nat) (t : Ty), p.type_size fuel t ≠ .diverges →
      p.type_size (fuel + 1) t = p.type_size fuel t := by
  intro fuel
  induction fuel with
  | zero => intro t h; exact absurd rfl h
  | succ fuel ih =>
    intro t h
    cases t with
    | Base r => rfl
    | Enum name =>
      rw [type_size_succ_enum p fuel name] at h
      rw [type_size_succ_enum p (fuel + 1) name, type_size_succ_enum p fuel name]
      cases hl : Isr.lookupName name p.types.enums with
      | none => rfl
      | some e =>
        rw [hl] at h
        exact ih e.subtype h
    | Struct name => rfl
    | Array subtype dims count =>
      rw [type_size_succ_array] at h
      rw [type_size_succ_array, type_size_succ_array]
      exact ih subtype h
    | Pointer subtype => rfl
    | Bitfield subtype bl bp =>
      rw [type_size_succ_bitfield] at h
      rw [type_size_succ_bitfield, type_size_succ_bitfield]
      exact ih subtype h
    | Function => rfl

/-- Extra fuel does not change a `type_size` run that already completes. -/
theorem type_size_mono_add (p : Profile) :
    ∀ (d fuel : Nat) (t : Ty), p.type_size fuel t ≠ .diverges →
      p.type_size (fuel + d) t = p.type_size fuel t := by
  intro d
  induction d with
  | zero => intro fuel t h; rfl
  | succ d ih =>
    intro fuel t h
    have h2 := ih fuel t h
    have h3 : p.type_size (fuel + d) t ≠ .diverges := by rw [h2]; exact h
    exact (type_size_mono_succ p (fuel + d) t h3).trans h2

/-- Fuel monotonicity of `type_size`. -/
theorem type_size_mono (p : Profile) (f g : Nat) (t : Ty) (hle : f ≤ g)
    (h : p.type_size f t ≠ .diverges) : p.type_size g t = p.type_size f t := by
  have hg : g = f + (g - f) := by omega
  rw [hg]
  exact type_size_mono_add p (g - f) f t h

/-- A direct hit diverges exactly when its size resolution does. -/
theorem direct_hit_diverges_iff (tn fn : String) (field : Isr.Field)
    (sres : RRes (Option Nat)) :
    direct_hit tn fn field sres = .diverges ↔ sres = .diverges := by
  cases hty : field.type_ <;>
    (cases sres with
     | diverges => simp [direct_hit, hty]
     | panics => simp [direct_hit, hty]
     | ret o => cases o <;> simp [direct_hit, hty])

/-- Replacing the recursive lookup of a completing scan by one that agrees
on completing calls does not change the scan. -/
theorem descend_congr
    (rec1 rec2 : String → String → RRes (RustResult FieldDescriptor Error))
    (hcong : ∀ m fn, rec1 m fn ≠ .diverges → rec2 m fn = rec1 m fn) :
    ∀ (tn fn : String) (fields : List (String × Isr.Field)),
      descend rec1 tn fn fields ≠ .diverges →
      descend rec2 tn fn fields = descend rec1 tn fn fields := by
  intro tn fn fields
  induction fields with
  | nil => intro _; rfl
  | cons head rest ih =>
    obtain ⟨hname, field⟩ := head
    intro h
    cases hty : field.type_ with
    | Struct m =>
      simp only [descend, hty] at h ⊢
      have hne : rec1 m fn ≠ .diverges := by
        intro hdiv
        rw [hdiv] at h
        exact h rfl
      rw [hcong m fn hne]
      cases hc : rec1 m fn with
      | diverges => exact absurd hc hne
      | panics => rfl
      | ret r =>
        cases r with
        | ok child => rfl
        | error e =>
          rw [hc] at h
          exact ih h
    | Base r => simp only [descend, hty] at h ⊢; exact ih h
    | Enum n => simp only [descend, hty] at h ⊢; exact ih h
    | Array s d c => simp only [descend, hty] at h ⊢; exact ih h
    | Pointer s => simp only [descend, hty] at h ⊢; exact ih h
    | Bitfield s bl bp => simp only [descend, hty] at h ⊢; exact ih h
    | Function => simp only [descend, hty] at h ⊢; exact ih h

/-- One extra unit of fuel does not change a completing
`find_field_descriptor` run. -/
theorem ffd_mono_succ (p : Profile) :
    ∀ (fuel : Nat) (tn fn : String),
      find_field_descriptor p fuel tn fn ≠ .diverges →
      find_field_descriptor p (fuel + 1) tn fn = find_field_descriptor p fuel tn fn := by
  intro fuel
  induction fuel with
  | zero => intro tn fn h; exact absurd rfl h
  | succ fuel ih =>
    intro tn fn h
    cases hfs : p.find_struct tn with
    | none => simp [find_field_descriptor, hfs]
    | some udt =>
      cases hlf : Isr.lookupName fn udt.fields with
      | some field =>
        have hL1 : find_field_descriptor p (fuel + 1) tn fn
            = direct_hit tn fn field (p.type_size (fuel + 1) field.type_) := by
          simp [find_field_descriptor, hfs, hlf]
        have hL2 : find_field_descriptor p (fuel + 1 + 1) tn fn
            = direct_hit tn fn field (p.type_size (fuel + 1 + 1) field.type_) := by
          simp [find_field_descriptor, hfs, hlf]
        rw [hL1] at h
        have hts : p.type_size (fuel + 1) field.type_ ≠ .diverges := by
          intro hdiv
          exact h ((direct_hit_diverges_iff tn fn field _).mpr hdiv)
        rw [hL2, hL1, type_size_mono_succ p (fuel + 1) field.type_ hts]
      | none =>
        have hL1 : find_field_descriptor p (fuel + 1) tn fn
            = descend (find_field_descriptor p fuel) tn fn udt.fields := by
          simp [find_field_descriptor, hfs, hlf]
        have hL2 : find_field_descriptor p (fuel + 1 + 1) tn fn
            = descend (find_field_descriptor p (fuel + 1)) tn fn udt.fields := by
          simp [find_field_descriptor, hfs, hlf]
        rw [hL1] at h
        rw [hL2, hL1]
        exact descend_congr (find_field_descriptor p fuel)
          (find_field_descriptor p (fuel + 1)) ih tn fn udt.fields h

/-- Extra fuel does not change a completing `find_field_descriptor` run. -/
theorem ffd_mono_add (p : Profile) :
    ∀ (d fuel : Nat) (tn fn : String),
      find_field_descriptor p fuel tn fn ≠ .diverges →
      find_field_descriptor p (fuel + d) tn fn = find_field_descriptor p fuel tn fn := by
  intro d
  induction d with
  | zero => intro fuel tn fn h; rfl
  | succ d ih =>
    intro fuel tn fn h
    have h2 := ih fuel tn fn h
    have h3 : find_field_descriptor p (fuel + d) tn fn ≠ .diverges := by
      rw [h2]; exact h
    exact (ffd_mono_succ p (fuel + d) tn fn h3).trans h2

/-- Fuel monotonicity of `find_field_descriptor`. -/
theorem ffd_mono (p : Profile) (f g : Nat) (tn fn : String) (hle : f ≤ g)
    (h : find_field_descriptor p f tn fn ≠ .diverges) :
    find_field_descriptor p g tn fn = find_field_descriptor p f tn fn := by
  have hg : g = f + (g - f) := by omega
  rw [hg]
  exact ffd_mono_add p (g - f) f tn fn h

/-- `type_size` completes on a type as soon as it completes on every enum
name the type hops to. -/
theorem type_size_term_ty (p : Profile) :
    ∀ t : Ty, (∀ m ∈ EnumsOn t, ∃ f, p.type_size f (.Enum m) ≠ .diverges) →
      ∃ f, p.type_size f t ≠ .diverges := by
  intro t
  induction t with
  | Base r =>
    intro _
    exact ⟨0 + 1, by rw [type_size_succ_base]; simp⟩
  | Enum name =>
    intro hm
    exact hm name (by simp [EnumsOn])
  | Struct name =>
    intro _
    refine ⟨0 + 1, ?_⟩
    intro hdiv
    exact RRes.noConfusion hdiv
  | Array subtype dims count ih =>
    intro hm
    obtain ⟨f, hf⟩ := ih (fun m hmem => hm m (by simpa [EnumsOn] using hmem))
    refine ⟨f + 1, ?_⟩
    rw [type_size_succ_array]
    exact hf
  | Pointer subtype ih =>
    intro _
    refine ⟨0 + 1, ?_⟩
    cases hps : p.pointer_size <;>
      simp [Profile.type_size, Profile.pointer_size_result, hps]
  | Bitfield subtype bl bp ih =>
    intro hm
    obtain ⟨f, hf⟩ := ih (fun m hmem => hm m (by simpa [EnumsOn] using hmem))
    refine ⟨f + 1, ?_⟩
    rw [type_size_succ_bitfield]
    exact hf
  | Function =>
    intro _
    refine ⟨0 + 1, ?_⟩
    cases hps : p.pointer_size <;>
      simp [Profile.type_size, Profile.pointer_size_result, hps]

/-- Under an acyclic enum reference graph, `type_size` completes on every
enum reference. -/
theorem type_size_term_name (p : Profile) (hwf : EnumAcyclic p) :
    ∀ n : String, ∃ f, p.type_size f (.Enum n) ≠ .diverges := by
  intro n
  refine WellFounded.induction (C := fun n => ∃ f, p.type_size f (.Enum n) ≠ .diverges)
    hwf n ?_
  intro x ihx
  cases hl : Isr.lookupName x p.types.enums with
  | none =>
    refine ⟨0 + 1, ?_⟩
    rw [type_size_succ_enum p 0 x, hl]
    simp
  | some e =>
    obtain ⟨f, hf⟩ := type_size_term_ty p e.subtype (fun m hm => ihx m ⟨e, hl, hm⟩)
    refine ⟨f + 1, ?_⟩
    rw [type_size_succ_enum p f x, hl]
    exact hf

/-- Under an acyclic enum reference graph, `type_size` completes on every
type. -/
theorem type_size_term (p : Profile) (hwf : EnumAcyclic p) :
    ∀ t : Ty, ∃ f, p.type_size f t ≠ .diverges :=
  fun t => type_size_term_ty p t (fun m _ => type_size_term_name p hwf m)

/-- The field scan completes at a uniform fuel bound once every recursive
lookup it can reach completes at some fuel. -/
theorem descend_term (p : Profile) (tn fn : String) :
    ∀ fields : List (String × Isr.Field),
      (∀ (fname : String) (fld : Isr.Field) (m : String),
        (fname, fld) ∈ fields → fld.type_ = .Struct m →
        ∃ f, find_field_descriptor p f m fn ≠ .diverges) →
      ∃ F, ∀ f, F ≤ f →
        descend (find_field_descriptor p f) tn fn fields ≠ .diverges := by
  intro fields
  induction fields with
  | nil =>
    intro _
    refine ⟨0, fun f _ => ?_⟩
    intro hdiv
    exact RRes.noConfusion hdiv
  | cons head rest ih =>
    obtain ⟨hname, fld⟩ := head
    intro hchild
    obtain ⟨Fr, hFr⟩ := ih (fun fname fld2 m hmem hty =>
      hchild fname fld2 m (List.mem_cons_of_mem _ hmem) hty)
    cases hty : fld.type_ with
    | Struct m =>
      obtain ⟨fc, hfc⟩ := hchild hname fld m (List.mem_cons_self _ _) hty
      refine ⟨max fc Fr, ?_⟩
      intro f hf
      have hmono : find_field_descriptor p f m fn = find_field_descriptor p fc m fn :=
        ffd_mono p fc f m fn (le_trans (le_max_left _ _) hf) hfc
      simp only [descend, hty]
      rw [hmono]
      cases hv : find_field_descriptor p fc m fn with
      | diverges => exact absurd hv hfc
      | panics => simp
      | ret r =>
        cases r with
        | ok child => simp
        | error e => exact hFr f (le_trans (le_max_right _ _) hf)
    | Base r =>
      refine ⟨Fr, fun f hf => ?_⟩
      simp only [descend, hty]
      exact hFr f hf
    | Enum n =>
      refine ⟨Fr, fun f hf => ?_⟩
      simp only [descend, hty]
      exact hFr f hf
    | Array s d c =>
      refine ⟨Fr, fun f hf => ?_⟩
      simp only [descend, hty]
      exact hFr f hf
    | Pointer s =>
      refine ⟨Fr, fun f hf => ?_⟩
      simp only [descend, hty]
      exact hFr f hf
    | Bitfield s bl bp =>
      refine ⟨Fr, fun f hf => ?_⟩
      simp only [descend, hty]
      exact hFr f hf
    | Function =>
      refine ⟨Fr, fun f hf => ?_⟩
      simp only [descend, hty]
      exact hFr f hf

/-- Under acyclic struct and enum reference graphs,
`find_field_descriptor` completes on every query. -/
theorem ffd_term (p : Profile) (hs : StructAcyclic p) (he : EnumAcyclic p) :
    ∀ tn fn : String, ∃ f, find_field_descriptor p f tn fn ≠ .diverges := by
  intro tn
  refine WellFounded.induction
    (C := fun tn => ∀ fn : String, ∃ f, find_field_descriptor p f tn fn ≠ .diverges)
    hs tn ?_
  intro x ihx fn
  cases hfs : p.find_struct x with
  | none =>
    refine ⟨0 + 1, ?_⟩
    have hL : find_field_descriptor p (0 + 1) x fn
        = .ret (.error (Error.type_not_found x)) := by
      simp [find_field_descriptor, hfs]
    rw [hL]
    simp
  | some udt =>
    cases hlf : Isr.lookupName fn udt.fields with
    | some field =>
      obtain ⟨ft, hft⟩ := type_size_term p he field.type_
      refine ⟨ft + 1, ?_⟩
      have hL : find_field_descriptor p (ft + 1) x fn
          = direct_hit x fn field (p.type_size (ft + 1) field.type_) := by
        simp [find_field_descriptor, hfs, hlf]
      rw [hL]
      intro hdiv
      have hd2 : p.type_size (ft + 1) field.type_ = .diverges :=
        (direct_hit_diverges_iff x fn field _).mp hdiv
      rw [type_size_mono p ft (ft + 1) field.type_ (Nat.le_succ ft) hft] at hd2
      exact hft hd2
    | none =>
      have hchild : ∀ (fname : String) (fld : Isr.Field) (m : String),
          (fname, fld) ∈ udt.fields → fld.type_ = .Struct m →
          ∃ f, find_field_descriptor p f m fn ≠ .diverges := by
        intro fname fld m hmem hty2
        exact ihx m ⟨udt, hfs, fname, fld, hmem, hty2⟩ fn
      obtain ⟨F, hF⟩ := descend_term p x fn udt.fields hchild
      refine ⟨F + 1, ?_⟩
      have hL : find_field_descriptor p (F + 1) x fn
          = descend (find_field_descriptor p F) x fn udt.fields := by
        simp [find_field_descriptor, hfs, hlf]
      rw [hL]
      exact hF F (le_refl F)

/-- C9 counterexample: acyclicity of the embedded-substructure graph alone
does not make `find_field_descriptor` terminate — in `enumCycleProfile`
the struct graph has no edge at all, yet the query for the directly-owned
field `f` never completes, because its size resolution chases the circular
enum `E` through `type_size` forever. -/
theorem C9_counterexample :
    StructAcyclic Isr.Fixtures.enumCycleProfile
    ∧ ¬ Terminates Isr.Fixtures.enumCycleProfile "S" "f" := by
  constructor
  · have hno : ∀ b a, ¬ StructEdge Isr.Fixtures.enumCycleProfile b a := by
      rintro b a ⟨udt, hl, fname, fld, hmem, hty⟩
      simp only [Isr.Fixtures.enumCycleProfile, Isr.lookupName] at hl
      split at hl
      · cases hl
        simp only [List.mem_singleton] at hmem
        cases hmem
        exact Ty.noConfusion hty
      · exact Option.noConfusion hl
    exact ⟨fun a => Acc.intro a (fun b hb => absurd hb (hno b a))⟩
  · have hts : ∀ f, Isr.Profile.type_size Isr.Fixtures.enumCycleProfile f (.Enum "E")
        = .diverges := by
      intro f
      induction f with
      | zero => rfl
      | succ f ihf =>
        have hstep : Isr.Profile.type_size Isr.Fixtures.enumCycleProfile (f + 1) (.Enum "E")
            = Isr.Profile.type_size Isr.Fixtures.enumCycleProfile f (.Enum "E") := rfl
        rw [hstep]
        exact ihf
    have hdiv : ∀ fuel,
        find_field_descriptor Isr.Fixtures.enumCycleProfile fuel "S" "f" = .diverges := by
      intro fuel
      cases fuel with
      | zero => rfl
      | succ fuel =>
        have hstep : find_field_descriptor Isr.Fixtures.enumCycleProfile (fuel + 1) "S" "f"
            = direct_hit "S" "f" ⟨0, .Enum "E"⟩
                (Isr.Profile.type_size Isr.Fixtures.enumCycleProfile (fuel + 1) (.Enum "E")) := rfl
        rw [hstep, hts (fuel + 1)]
        rfl
    rintro ⟨fuel, hf⟩
    exact hf (hdiv fuel)

/-- C9 (amended): `find_field_descriptor` terminates on every query of any
profile whose embedded-substructure reference graph and enum reference
graph are both acyclic; and the recursion has no cycle guard — in
`structCycleProfile`, where `A` embeds itself by name, the query for an
absent field recurses without terminating. -/
theorem C9_termination :
    (∀ p : Profile, StructAcyclic p → EnumAcyclic p →
      ∀ tn fn : String, Terminates p tn fn)
    ∧ StructEdge Isr.Fixtures.structCycleProfile "A" "A"
    ∧ ¬ Terminates Isr.Fixtures.structCycleProfile "A" "x" := by
  refine ⟨fun p hs he tn fn => ffd_term p hs he tn fn, ?_, ?_⟩
  · exact ⟨⟨.Struct, 8, [("self", ⟨0, .Struct "A"⟩)]⟩, rfl, "self", ⟨0, .Struct "A"⟩,
      List.mem_singleton.mpr rfl, rfl⟩
  · have hdiv : ∀ fuel,
        find_field_descriptor Isr.Fixtures.structCycleProfile fuel "A" "x" = .diverges := by
      intro fuel
      induction fuel with
      | zero => rfl
      | succ fuel ihf =>
        have hstep : find_field_descriptor Isr.Fixtures.structCycleProfile (fuel + 1) "A" "x"
            = descend (find_field_descriptor Isr.Fixtures.structCycleProfile fuel) "A" "x"
                [("self", ⟨0, .Struct "A"⟩)] := rfl
        rw [hstep]
        simp [descend, ihf]
    rintro ⟨fuel, hf⟩
    exact hf (hdiv fuel)

/-- C9 witness: a trivially acyclic profile, on which every query
terminates by the amended statement. -/
theorem C9_termination_witness :
    Terminates Isr.Fixtures.trivialProfile "S" "f" := by
  have hsa : StructAcyclic Isr.Fixtures.trivialProfile := by
    refine ⟨fun a => Acc.intro a (fun b hb => ?_)⟩
    obtain ⟨udt, hl, -⟩ := hb
    exact Option.noConfusion hl
  have hea : EnumAcyclic Isr.Fixtures.trivialProfile := by
    refine ⟨fun a => Acc.intro a (fun b hb => ?_)⟩
    obtain ⟨e, hl, -⟩ := hb
    exact Option.noConfusion hl
  exact C9_termination.1 Isr.Fixtures.trivialProfile hsa hea "S" "f"

end ClaimC9
